import Mathlib

/-!
Shallow embedding of `src/components/bpp-recv/powerdown.c`, the sleep/wake
arbitration core of the firmware.

Modelling choices:
* Time is measured in absolute milliseconds.  The C code stores per-item
  deadlines in a `struct timeval` and compares via
  `mssleep = (sleepUntil.tv_sec-now.tv_sec)*1000 + (sleepUntil.tv_usec-now.tv_usec)/1000`;
  we collapse the timeval to its millisecond value (`sleepUntil : Int`) so
  that `mssleep = sleepUntil - now`.  `getCurrentTimeMs` returns `uint64`;
  we take `now : Nat`.
* A single arbitration pass calls `gettimeofday`/`getCurrentTimeMs` several
  times; the time elapsed inside one pass is not observable at millisecond
  granularity, so the pass takes one `now` parameter ("evaluation start").
* `savedWakeTimestamp` is an array of `NO_POWER_MODES` `uint64` slots; we
  model it as a function `Nat → Nat` whose values are reduced mod 2^64 when
  written (`u64add` mirrors the C conversion of the `int canSleepForMs`
  to `uint64` in `savedWakeTimestamp[powerMode]=getCurrentTimeMs()+canSleepForMs`).
* `doSleep(sleepMs, nextMode)` invocations are recorded, in order, in a
  list of `(Int × Nat)` pairs (duration, target mode).
* The linked list `powerItems` becomes `List PowerItem`; `findItem`
  prepends a zero-initialized record (`memset 0` gives `ref`-field set
  afterwards, `state = 0 = ST_ACTIVE`, `sleepUntil = 0`) when the ref is
  absent, and otherwise returns the first record with that ref.
-/

namespace Powerdown

/-- The three owner states `ST_ACTIVE`, `ST_CANSLEEP`, `ST_CANSLEEP_UNTIL`. -/
inductive PState where
  | active
  | canSleep
  | canSleepUntil
deriving DecidableEq, Repr

/-- One `struct PowerItem`: owner id `ref`, state, and the overloaded
`sleepUntil` timestamp (absolute ms). -/
structure PowerItem where
  ref : Int
  state : PState
  sleepUntil : Int
deriving DecidableEq, Repr

/-- The shared mutable state of the manager: the registry `powerItems`,
the persisted `savedWakeTimestamp` table (uint64 per mode) and the current
`powerMode`. -/
structure PdState where
  items : List PowerItem
  wake : Nat → Nat
  powerMode : Nat

/-- 2^64, the modulus of `uint64` arithmetic. -/
def u64Mod : Int := 18446744073709551616

/-- Sum `getCurrentTimeMs() + canSleepForMs` computed in `uint64`: the `int`
summand is converted to `uint64` (two's complement) and the sum wraps. -/
def u64add (now : Nat) (c : Int) : Nat := (((now : Int) + c) % u64Mod).toNat

/-- The body of the per-item `while` loop of `checkCanSleep`, threading the
accumulators `canSleepForMs` (init `-1`) and `cannotSleep` (init `false`).
Returns the updated registry, the final `canSleepForMs` and the final
`cannotSleep`. -/
def scanItems (now : Nat) : List PowerItem → Int → Bool → List PowerItem × Int × Bool
  | [], c, b => ([], c, b)
  | i :: rest, c, b =>
    let ms : Int := i.sleepUntil - (now : Int)
    match i.state with
    | .active =>
      if 0 < ms then
        let r := scanItems now rest c true
        (i :: r.1, r.2)
      else
        let r := scanItems now rest c b
        ({ i with state := .canSleep } :: r.1, r.2)
    | .canSleepUntil =>
      if ms < 2000 then
        let r := scanItems now rest c true
        ({ i with state := .active } :: r.1, r.2)
      else
        let c2 := if c = -1 ∨ ms < c then ms else c
        let r := scanItems now rest c2 b
        (i :: r.1, r.2)
    | .canSleep =>
      let r := scanItems now rest c b
      (i :: r.1, r.2)

/-- How one pass rewrites a single item (the registry mutation of the
per-item loop, which is independent of the accumulators). -/
def transformItem (now : Nat) (i : PowerItem) : PowerItem :=
  match i.state with
  | .active => if 0 < i.sleepUntil - (now : Int) then i else { i with state := .canSleep }
  | .canSleepUntil =>
      if i.sleepUntil - (now : Int) < 2000 then { i with state := .active } else i
  | .canSleep => i

/-- Whether a single item sets `cannotSleep` in the per-item loop. -/
def blocksItem (now : Nat) (i : PowerItem) : Bool :=
  match i.state with
  | .active => decide (0 < i.sleepUntil - (now : Int))
  | .canSleepUntil => decide (i.sleepUntil - (now : Int) < 2000)
  | .canSleep => false

/-- The candidate sleep bound a single item contributes (`mssleep` for a
`ST_CANSLEEP_UNTIL` item whose window is at least the 2000 ms hysteresis). -/
def contribItem (now : Nat) (i : PowerItem) : Option Int :=
  match i.state with
  | .canSleepUntil =>
      if i.sleepUntil - (now : Int) < 2000 then none else some (i.sleepUntil - (now : Int))
  | _ => none

/-- The `canSleepForMs` update: `if (canSleepForMs==-1 || mssleep<canSleepForMs)`. -/
def minSent (c m : Int) : Int := if c = -1 ∨ m < c then m else c

/-- The ascending scan `for (int i=powerMode+1; i<NO_POWER_MODES; i++)`
collecting the higher-priority modes whose persisted wake timestamp is
nonzero and strictly earlier than now. -/
def dueList (N now : Nat) (s : PdState) : List Nat :=
  (List.range N).filter (fun i => decide (s.powerMode < i ∧ s.wake i ≠ 0 ∧ s.wake i < now))

/-- The `nearestMode` loop: start at mode `0`, replace by `i` whenever
slot `i` is nonzero and strictly below the current best. -/
def nearestModeCalc (N : Nat) (w : Nat → Nat) : Nat :=
  (List.range N).foldl (fun nm i => if w i ≠ 0 ∧ w i < w nm then i else nm) 0

/-- Result of one arbitration pass: the new shared state, the `doSleep`
invocations in order, and whether the `if (!cannotSleep)` branch ran. -/
structure PassResult where
  state : PdState
  calls : List (Int × Nat)
  authorized : Bool

/-- One arbitration pass, `checkCanSleep` (`N` is `NO_POWER_MODES`). -/
def checkCanSleep (N now : Nat) (s : PdState) : PassResult :=
  let scanned := scanItems now s.items (-1) false
  let due := dueList N now s
  let dueCalls := due.map (fun i => ((0 : Int), i))
  let cannotSleep := scanned.2.2 || !due.isEmpty
  if cannotSleep then
    { state := { s with items := scanned.1 }, calls := dueCalls, authorized := false }
  else
    let wake2 := fun j => if j = s.powerMode then u64add now scanned.2.1 else s.wake j
    let nm := nearestModeCalc N wake2
    let call : Int × Nat :=
      if nm = s.powerMode then (scanned.2.1, nm)
      else ((wake2 nm : Int) - (now : Int), nm)
    { state := { s with items := scanned.1, wake := wake2 },
      calls := dueCalls ++ [call], authorized := true }

/-- A fresh registry entry as `findItem` creates it (`memset` to zero, then
the ref is filled in: state `ST_ACTIVE`, `sleepUntil` zero). -/
def newItem (ref : Int) : PowerItem := { ref := ref, state := .active, sleepUntil := 0 }

/-- Whether the registry already holds a record for `ref`. -/
def hasRef (items : List PowerItem) (ref : Int) : Bool := items.any (fun i => i.ref == ref)

/-- Apply `f` to the first record with the given ref (the record `findItem`
returns when the ref is present). -/
def updateFirstRef (ref : Int) (f : PowerItem → PowerItem) :
    List PowerItem → List PowerItem
  | [] => []
  | i :: rest =>
    if i.ref = ref then f i :: rest else i :: updateFirstRef ref f rest

/-- Lookup `findItem` followed by a mutation of the returned record: update the
first matching record, or prepend a mutated fresh record. -/
def findAndApply (ref : Int) (f : PowerItem → PowerItem)
    (items : List PowerItem) : List PowerItem :=
  if hasRef items ref then updateFirstRef ref f items else f (newItem ref) :: items

/-- The record mutation `_powerHold` performs on the found item:
`sleepUntil = now + holdTimeMs`, `state = ST_ACTIVE`. -/
def holdUpdate (now : Nat) (holdTimeMs : Int) (p : PowerItem) : PowerItem :=
  { p with sleepUntil := (now : Int) + holdTimeMs, state := PState.active }

/-- Operation `_powerHold`: re-arm the deadline to `now + holdTimeMs`, set state
`ST_ACTIVE`.  Does not run `checkCanSleep`, so no `doSleep` call happens. -/
def powerHold (now : Nat) (ref : Int) (holdTimeMs : Int) (s : PdState) :
    PdState × List (Int × Nat) :=
  ({ s with items := findAndApply ref (holdUpdate now holdTimeMs) s.items }, [])

/-- The record mutation `_powerCanSleepFor` performs on the found item. -/
def canSleepForUpdate (now : Nat) (delayMs : Int) (p : PowerItem) : PowerItem :=
  { p with sleepUntil := (now : Int) + delayMs, state := PState.canSleepUntil }

/-- Operation `_powerCanSleepFor`: set deadline `now + delayMs`, state
`ST_CANSLEEP_UNTIL`, then run `checkCanSleep`. -/
def powerCanSleepFor (N now : Nat) (ref : Int) (delayMs : Int) (s : PdState) :
    PdState × List (Int × Nat) :=
  let s2 : PdState :=
    { s with items := findAndApply ref (canSleepForUpdate now delayMs) s.items }
  let r := checkCanSleep N now s2
  (r.state, r.calls)

/-- The record mutation `_powerCanSleep` performs on the found item. -/
def canSleepUpdate (p : PowerItem) : PowerItem := { p with state := PState.canSleep }

/-- Operation `_powerCanSleep`: set state `ST_CANSLEEP` (the `sleepUntil` field is
left alone), then run `checkCanSleep`. -/
def powerCanSleep (N now : Nat) (ref : Int) (s : PdState) :
    PdState × List (Int × Nat) :=
  let s2 : PdState := { s with items := findAndApply ref canSleepUpdate s.items }
  let r := checkCanSleep N now s2
  (r.state, r.calls)

/-- Timer callback `pwrdwnmgrTimer`: the periodic trigger just runs `checkCanSleep`. -/
def timerTick (N now : Nat) (s : PdState) : PdState × List (Int × Nat) :=
  let r := checkCanSleep N now s
  (r.state, r.calls)

/-- The externally triggerable operations on the manager. -/
inductive Event where
  | hold (now : Nat) (ref : Int) (d : Int)
  | canSleepFor (now : Nat) (ref : Int) (d : Int)
  | canSleep (now : Nat) (ref : Int)
  | timer (now : Nat)
deriving DecidableEq, Repr

/-- State after one event. -/
def stepEvent (N : Nat) (s : PdState) : Event → PdState
  | .hold now ref d => (powerHold now ref d s).1
  | .canSleepFor now ref d => (powerCanSleepFor N now ref d s).1
  | .canSleep now ref => (powerCanSleep N now ref s).1
  | .timer now => (timerTick N now s).1

/-- State after a sequence of events. -/
def runEvents (N : Nat) (s : PdState) : List Event → PdState
  | [] => s
  | e :: es => runEvents N (stepEvent N s e) es

/-- Whether the event is an owner-facing call made by `ref`. -/
def eventByRef (ref : Int) : Event → Bool
  | .hold _ r _ => r == ref
  | .canSleepFor _ r _ => r == ref
  | .canSleep _ r => r == ref
  | .timer _ => false

/-- Whether the event is a `permit_sleep` call by `ref`. -/
def isCanSleepBy (ref : Int) : Event → Bool
  | .canSleep _ r => r == ref
  | _ => false

def exS1 : PdState :=
  { items := [{ ref := 1, state := PState.active, sleepUntil := 10500 }],
    wake := fun _ => 0, powerMode := 0 }

def exS2 : PdState :=
  { items := [{ ref := 3, state := PState.canSleepUntil, sleepUntil := 11500 }],
    wake := fun _ => 0, powerMode := 0 }

def exS5 : PdState :=
  { items := [], wake := fun j => if j = 1 then 100 else 0, powerMode := 0 }

def exS5b : PdState :=
  { items := [], wake := fun j => if j = 1 then 50 else 0, powerMode := 0 }

def exS6 : PdState :=
  { items := [],
    wake := fun j => if j = 1 then 50 else if j = 2 then 60 else 0, powerMode := 0 }

def exS3 : PdState :=
  { items := [{ ref := 1, state := PState.canSleepUntil, sleepUntil := 13000 },
              { ref := 2, state := PState.canSleepUntil, sleepUntil := 11000 }],
    wake := fun _ => 0, powerMode := 0 }

def exS3b : PdState :=
  { items := [{ ref := 1, state := PState.canSleepUntil, sleepUntil := 13000 },
              { ref := 2, state := PState.canSleepUntil, sleepUntil := 15000 }],
    wake := fun _ => 0, powerMode := 0 }

def exS4 : PdState :=
  { items := [{ ref := 1, state := PState.canSleepUntil, sleepUntil := 103000 }],
    wake := fun _ => 0, powerMode := 1 }

def exS7 : PdState :=
  { items := [{ ref := 1, state := PState.canSleep, sleepUntil := 0 }],
    wake := fun _ => 0, powerMode := 0 }

def exS9 : PdState :=
  { items := [{ ref := 5, state := PState.canSleep, sleepUntil := 0 },
              { ref := 9, state := PState.active, sleepUntil := 400 }],
    wake := fun _ => 0, powerMode := 0 }

def exS10 : PdState :=
  { items := [{ ref := 4, state := PState.canSleepUntil, sleepUntil := 5000 }],
    wake := fun _ => 0, powerMode := 0 }

def exS10b : PdState :=
  { items := [{ ref := 4, state := PState.active, sleepUntil := 5000 }],
    wake := fun _ => 0, powerMode := 0 }

/-- The invariant carried through event sequences for C8: unique refs,
the owner is registered, and every record of the owner is `CanSleep`. -/
def RefCanSleepInv (ref : Int) (l : List PowerItem) : Prop :=
  (l.map PowerItem.ref).Nodup ∧ hasRef l ref = true ∧
  ∀ i ∈ l, i.ref = ref → i.state = PState.canSleep

def exS8 : PdState :=
  { items := [{ ref := 3, state := PState.active, sleepUntil := 900 }],
    wake := fun _ => 0, powerMode := 0 }

def exE8 : List Event :=
  [Event.timer 150, Event.canSleep 200 7, Event.hold 300 3 500]

/-! Decomposition of the per-item loop: the registry rewrite, the
`cannotSleep` flag and the `canSleepForMs` accumulator are computed
independently of each other. -/

theorem scanItems_fst (now : Nat) : ∀ (l : List PowerItem) (c : Int) (b : Bool),
    (scanItems now l c b).1 = l.map (transformItem now)
  | [], _, _ => rfl
  | i :: rest, c, b => by
    cases hst : i.state with
    | active =>
      by_cases hms : (0 : Int) < i.sleepUntil - (now : Int)
      · simp [scanItems, transformItem, hst, hms, scanItems_fst now rest]
      · simp [scanItems, transformItem, hst, hms, scanItems_fst now rest]
    | canSleepUntil =>
      by_cases hms : i.sleepUntil - (now : Int) < 2000
      · simp [scanItems, transformItem, hst, hms, scanItems_fst now rest]
      · simp [scanItems, transformItem, hst, hms, scanItems_fst now rest]
    | canSleep => simp [scanItems, transformItem, hst, scanItems_fst now rest]

theorem scanItems_blocked (now : Nat) : ∀ (l : List PowerItem) (c : Int) (b : Bool),
    (scanItems now l c b).2.2 = (b || l.any (blocksItem now))
  | [], _, _ => by simp [scanItems]
  | i :: rest, c, b => by
    cases hst : i.state with
    | active =>
      by_cases hms : (0 : Int) < i.sleepUntil - (now : Int)
      · simp [scanItems, blocksItem, hst, hms, scanItems_blocked now rest]
      · simp [scanItems, blocksItem, hst, hms, scanItems_blocked now rest]
    | canSleepUntil =>
      by_cases hms : i.sleepUntil - (now : Int) < 2000
      · simp [scanItems, blocksItem, hst, hms, scanItems_blocked now rest]
      · simp [scanItems, blocksItem, hst, hms, scanItems_blocked now rest]
    | canSleep => simp [scanItems, blocksItem, hst, scanItems_blocked now rest]

theorem scanItems_min (now : Nat) : ∀ (l : List PowerItem) (c : Int) (b : Bool),
    (scanItems now l c b).2.1 = (l.filterMap (contribItem now)).foldl minSent c
  | [], _, _ => by simp [scanItems]
  | i :: rest, c, b => by
    cases hst : i.state with
    | active =>
      by_cases hms : (0 : Int) < i.sleepUntil - (now : Int)
      · simp [scanItems, contribItem, hst, hms, scanItems_min now rest]
      · simp [scanItems, contribItem, hst, hms, scanItems_min now rest]
    | canSleepUntil =>
      by_cases hms : i.sleepUntil - (now : Int) < 2000
      · simp [scanItems, contribItem, hst, hms, scanItems_min now rest]
      · simp [scanItems, contribItem, hst, hms, minSent, scanItems_min now rest]
    | canSleep => simp [scanItems, contribItem, hst, scanItems_min now rest]

/-- When some item blocks, or some higher-priority mode is due, the pass
takes the `cannotSleep` path: registry rewritten, wake table untouched,
only the due-mode dispatches are emitted. -/
theorem checkCanSleep_blocked_eq (N now : Nat) (s : PdState)
    (h : s.items.any (blocksItem now) = true ∨ dueList N now s ≠ []) :
    checkCanSleep N now s =
      { state := { s with items := s.items.map (transformItem now) },
        calls := (dueList N now s).map (fun i => ((0 : Int), i)),
        authorized := false } := by
  have hb : ((scanItems now s.items (-1) false).2.2 || !(dueList N now s).isEmpty) = true := by
    rw [scanItems_blocked]
    rcases h with h | h
    · simp [h]
    · have : (dueList N now s).isEmpty = false := by
        cases hd : dueList N now s with
        | nil => exact absurd hd h
        | cons a l => rfl
      simp [this]
  simp only [checkCanSleep]
  rw [if_pos hb, scanItems_fst]

/-- C1: while any owner record is `Active` with an unexpired deadline,
the pass never authorizes sleep: the authorizing branch is skipped, the
current mode's wake timestamp stays untouched, and every callback
invocation of the pass is a higher-priority due-mode dispatch with
duration 0. -/
theorem claim_C1_active_hold_blocks (N now : Nat) (s : PdState)
    (h : ∃ i ∈ s.items, i.state = PState.active ∧ (now : Int) < i.sleepUntil) :
    (checkCanSleep N now s).authorized = false ∧
    (checkCanSleep N now s).state.wake s.powerMode = s.wake s.powerMode ∧
    ∀ c ∈ (checkCanSleep N now s).calls, c.1 = 0 ∧ s.powerMode < c.2 := by
  obtain ⟨i, hi, hst, hfut⟩ := h
  have hany : s.items.any (blocksItem now) = true := by
    rw [List.any_eq_true]
    refine ⟨i, hi, ?_⟩
    simp [blocksItem, hst]
    omega
  rw [checkCanSleep_blocked_eq N now s (Or.inl hany)]
  refine ⟨rfl, rfl, ?_⟩
  intro c hc
  simp only [List.mem_map] at hc
  obtain ⟨j, hj, rfl⟩ := hc
  simp only [dueList, List.mem_filter, List.mem_range, decide_eq_true_eq] at hj
  exact ⟨rfl, hj.2.1⟩

theorem claim_C1_witness :
    (∃ i ∈ exS1.items, i.state = PState.active ∧ ((10000 : Nat) : Int) < i.sleepUntil) ∧
    ((checkCanSleep 1 10000 exS1).authorized = false ∧
     (checkCanSleep 1 10000 exS1).state.wake exS1.powerMode = exS1.wake exS1.powerMode ∧
     ∀ c ∈ (checkCanSleep 1 10000 exS1).calls, c.1 = 0 ∧ exS1.powerMode < c.2) :=
  ⟨by decide, claim_C1_active_hold_blocks 1 10000 exS1 (by decide)⟩

/-- C2: a `CanSleepUntil` record whose remaining window is below the
2000 ms hysteresis is promoted back to `Active` by the pass, and the pass
does not authorize sleep. -/
theorem claim_C2_short_window_promotes (N now : Nat) (s : PdState) (i : PowerItem)
    (hi : i ∈ s.items) (hst : i.state = PState.canSleepUntil)
    (hms : i.sleepUntil - (now : Int) < 2000) :
    ({ i with state := PState.active } ∈ (checkCanSleep N now s).state.items) ∧
    (checkCanSleep N now s).authorized = false ∧
    (checkCanSleep N now s).state.wake s.powerMode = s.wake s.powerMode := by
  have hany : s.items.any (blocksItem now) = true := by
    rw [List.any_eq_true]
    refine ⟨i, hi, ?_⟩
    simp [blocksItem, hst, hms]
  rw [checkCanSleep_blocked_eq N now s (Or.inl hany)]
  refine ⟨?_, rfl, rfl⟩
  have ht : transformItem now i = { i with state := PState.active } := by
    simp [transformItem, hst, hms]
  exact ht ▸ List.mem_map_of_mem (transformItem now) hi

theorem claim_C2_witness :
    ((⟨3, PState.canSleepUntil, 11500⟩ : PowerItem) ∈ exS2.items ∧
     (⟨3, PState.canSleepUntil, 11500⟩ : PowerItem).state = PState.canSleepUntil ∧
     (⟨3, PState.canSleepUntil, 11500⟩ : PowerItem).sleepUntil - ((10000 : Nat) : Int) < 2000) ∧
    (({ (⟨3, PState.canSleepUntil, 11500⟩ : PowerItem) with state := PState.active }
        ∈ (checkCanSleep 1 10000 exS2).state.items) ∧
     (checkCanSleep 1 10000 exS2).authorized = false ∧
     (checkCanSleep 1 10000 exS2).state.wake exS2.powerMode = exS2.wake exS2.powerMode) :=
  ⟨⟨by decide, by decide, by decide⟩,
   claim_C2_short_window_promotes 1 10000 exS2 _ (by decide) (by decide) (by decide)⟩

/-- C5 counterexample: mode 1's persisted wake timestamp equals `now`
exactly (due under the claim's "less than or equal to now"), yet the pass
emits no `(0, 1)` dispatch: it takes the sleep-authorizing branch, persists
a wake timestamp for mode 0 and calls the callback with `(-1, 0)`. -/
theorem claim_C5_counterexample :
    (exS5.powerMode < 1 ∧ exS5.wake 1 ≠ 0 ∧ exS5.wake 1 ≤ 100) ∧
    (checkCanSleep 2 100 exS5).calls = [((-1 : Int), 0)] ∧
    (checkCanSleep 2 100 exS5).state.wake 0 = 99 ∧
    (checkCanSleep 2 100 exS5).authorized = true := by decide

/-- C5 amended: if some higher-priority mode's wake timestamp is nonzero
and strictly earlier than `now`, the pass dispatches `(0, that mode)`,
every invocation of the pass is such a due-mode dispatch, the wake table is
untouched and the sleep-authorizing branch is skipped. -/
theorem claim_C5_due_mode_short_circuits (N now : Nat) (s : PdState) (j : Nat)
    (hjN : j < N) (hjm : s.powerMode < j) (hnz : s.wake j ≠ 0) (hdue : s.wake j < now) :
    ((0 : Int), j) ∈ (checkCanSleep N now s).calls ∧
    (∀ c ∈ (checkCanSleep N now s).calls, c.1 = 0 ∧ s.powerMode < c.2) ∧
    (checkCanSleep N now s).state.wake = s.wake ∧
    (checkCanSleep N now s).authorized = false := by
  have hj : j ∈ dueList N now s := by
    simp only [dueList, List.mem_filter, List.mem_range, decide_eq_true_eq]
    exact ⟨hjN, hjm, hnz, hdue⟩
  have hne : dueList N now s ≠ [] := by
    intro h
    rw [h] at hj
    exact absurd hj (List.not_mem_nil j)
  rw [checkCanSleep_blocked_eq N now s (Or.inr hne)]
  refine ⟨List.mem_map_of_mem _ hj, ?_, rfl, rfl⟩
  intro c hc
  obtain ⟨k, hk, rfl⟩ := List.mem_map.mp hc
  simp only [dueList, List.mem_filter, List.mem_range, decide_eq_true_eq] at hk
  exact ⟨rfl, hk.2.1⟩

theorem claim_C5_witness :
    ((1 : Nat) < 2 ∧ exS5b.powerMode < 1 ∧ exS5b.wake 1 ≠ 0 ∧ exS5b.wake 1 < 100) ∧
    (((0 : Int), 1) ∈ (checkCanSleep 2 100 exS5b).calls ∧
     (∀ c ∈ (checkCanSleep 2 100 exS5b).calls, c.1 = 0 ∧ exS5b.powerMode < c.2) ∧
     (checkCanSleep 2 100 exS5b).state.wake = exS5b.wake ∧
     (checkCanSleep 2 100 exS5b).authorized = false) :=
  ⟨by decide,
   claim_C5_due_mode_short_circuits 2 100 exS5b 1 (by decide) (by decide) (by decide) (by decide)⟩

/-- C6 counterexample: with two higher-priority modes due in the same pass,
the callback is invoked twice, not at most once. -/
theorem claim_C6_counterexample :
    (checkCanSleep 3 100 exS6).calls = [((0 : Int), 1), ((0 : Int), 2)] ∧
    ¬ (checkCanSleep 3 100 exS6).calls.length ≤ 1 := by decide

/-- C6 amended: the pass invokes the callback at most once, except that
each due higher-priority mode receives its own immediate dispatch: the
number of invocations never exceeds `max 1 (number of due higher modes)`. -/
theorem claim_C6_calls_bounded (N now : Nat) (s : PdState) :
    (checkCanSleep N now s).calls.length ≤ max 1 (dueList N now s).length := by
  simp only [checkCanSleep]
  split
  · simp only [List.length_map]
    exact le_max_right 1 (dueList N now s).length
  · rename_i h
    have hemp : (dueList N now s).isEmpty = true := by
      by_contra hne
      simp only [Bool.not_eq_true] at hne
      simp [hne] at h
    have : dueList N now s = [] := List.isEmpty_iff.mp hemp
    simp [this]

/-- When no item blocks and no higher-priority mode is due, the pass takes
the sleep-authorizing branch: registry rewritten, the current mode's wake
slot set to `now + canSleepForMs` (uint64), and a single callback
invocation determined by the `nearestMode` scan. -/
theorem checkCanSleep_auth_eq (N now : Nat) (s : PdState)
    (hb : s.items.any (blocksItem now) = false) (hd : dueList N now s = []) :
    checkCanSleep N now s =
      (let c := (scanItems now s.items (-1) false).2.1
       let wake2 : Nat → Nat := fun j => if j = s.powerMode then u64add now c else s.wake j
       let nm := nearestModeCalc N wake2
       { state := { s with items := s.items.map (transformItem now), wake := wake2 },
         calls := [if nm = s.powerMode then (c, nm)
                   else ((wake2 nm : Int) - (now : Int), nm)],
         authorized := true }) := by
  have hni : ¬ ((scanItems now s.items (-1) false).2.2 || !(dueList N now s).isEmpty) = true := by
    rw [scanItems_blocked]
    simp [hb, hd]
  simp only [checkCanSleep, if_neg hni]
  rw [scanItems_fst]
  simp [hd]

/-- Value facts about one `canSleepForMs` update on nonnegative inputs. -/
theorem minSent_nonneg_eq (c m : Int) (hc : 0 ≤ c) (_hm : 0 ≤ m) :
    (minSent c m = m ∧ m ≤ c) ∨ (minSent c m = c ∧ c ≤ m) := by
  unfold minSent
  by_cases h : m < c
  · left
    rw [if_pos (Or.inr h)]
    omega
  · right
    have hcond : ¬ (c = -1 ∨ m < c) := by
      rintro (h1 | h2)
      · omega
      · exact h h2
    rw [if_neg hcond]
    omega

/-- The accumulator form of the `canSleepForMs` fold: from a nonnegative
accumulator over nonnegative candidates it computes their minimum. -/
theorem foldl_minSent_acc : ∀ (l : List Int) (c : Int), 0 ≤ c → (∀ m ∈ l, 0 ≤ m) →
    (l.foldl minSent c = c ∨ l.foldl minSent c ∈ l) ∧
    l.foldl minSent c ≤ c ∧ ∀ m ∈ l, l.foldl minSent c ≤ m := by
  intro l
  induction l with
  | nil =>
    intro c hc _
    refine ⟨Or.inl rfl, le_refl c, ?_⟩
    intro m hm
    cases hm
  | cons a rest ih =>
    intro c hc hnn
    have ha : 0 ≤ a := hnn a (List.mem_cons_self a rest)
    have hrest : ∀ x ∈ rest, 0 ≤ x := fun x hx => hnn x (List.mem_cons_of_mem a hx)
    have hacc0 : 0 ≤ minSent c a := by
      rcases minSent_nonneg_eq c a hc ha with ⟨h1, _⟩ | ⟨h1, _⟩ <;> omega
    have hlec : minSent c a ≤ c := by
      rcases minSent_nonneg_eq c a hc ha with ⟨h1, h2⟩ | ⟨h1, h2⟩ <;> omega
    have hlea : minSent c a ≤ a := by
      rcases minSent_nonneg_eq c a hc ha with ⟨h1, h2⟩ | ⟨h1, h2⟩ <;> omega
    obtain ⟨hmem, hle, hall⟩ := ih (minSent c a) hacc0 hrest
    rw [List.foldl_cons]
    refine ⟨?_, le_trans hle hlec, ?_⟩
    · rcases hmem with h | h
      · rcases minSent_nonneg_eq c a hc ha with ⟨h1, _⟩ | ⟨h1, _⟩
        · refine Or.inr ?_
          rw [h, h1]
          exact List.mem_cons_self a rest
        · refine Or.inl ?_
          rw [h, h1]
      · exact Or.inr (List.mem_cons_of_mem a h)
    · intro x hx
      rcases List.mem_cons.mp hx with rfl | hx2
      · exact le_trans hle hlea
      · exact hall x hx2

/-- Starting from the `-1` sentinel, the `canSleepForMs` fold over a
nonempty list of nonnegative candidates returns the minimum candidate. -/
theorem foldl_minSent_neg_one (l : List Int) (hne : l ≠ []) (hnn : ∀ m ∈ l, 0 ≤ m) :
    l.foldl minSent (-1) ∈ l ∧ ∀ m ∈ l, l.foldl minSent (-1) ≤ m := by
  cases l with
  | nil => exact absurd rfl hne
  | cons a rest =>
    have ha : 0 ≤ a := hnn a (List.mem_cons_self a rest)
    have hrest : ∀ x ∈ rest, 0 ≤ x := fun x hx => hnn x (List.mem_cons_of_mem a hx)
    have hfirst : minSent (-1) a = a := by
      unfold minSent
      rw [if_pos (Or.inl rfl)]
    obtain ⟨hmem, hle, hall⟩ := foldl_minSent_acc rest a ha hrest
    rw [List.foldl_cons, hfirst]
    refine ⟨?_, ?_⟩
    · rcases hmem with h | h
      · rw [h]
        exact List.mem_cons_self a rest
      · exact List.mem_cons_of_mem a h
    · intro x hx
      rcases List.mem_cons.mp hx with rfl | hx2
      · exact hle
      · exact hall x hx2

/-- If no slot beats slot `0` under the loop's strict-improvement test, the
`nearestMode` scan returns `0`. -/
theorem foldl_nearest_zero (w : Nat → Nat) :
    ∀ l : List Nat, (∀ i ∈ l, ¬(w i ≠ 0 ∧ w i < w 0)) →
    l.foldl (fun nm i => if w i ≠ 0 ∧ w i < w nm then i else nm) 0 = 0 := by
  intro l
  induction l with
  | nil => intro _; rfl
  | cons a rest ih =>
    intro h
    rw [List.foldl_cons, if_neg (h a (List.mem_cons_self a rest))]
    exact ih (fun i hi => h i (List.mem_cons_of_mem a hi))

theorem nearestModeCalc_zero (N : Nat) (w : Nat → Nat)
    (h : ∀ i, ¬(w i ≠ 0 ∧ w i < w 0)) : nearestModeCalc N w = 0 :=
  foldl_nearest_zero w (List.range N) (fun i _ => h i)

/-- Inversion of a sleep-bound contribution: only a `CanSleepUntil` record
with at least the 2000 ms hysteresis remaining contributes, and it
contributes exactly its remaining time. -/
theorem contribItem_some (now : Nat) (i : PowerItem) (m : Int)
    (h : contribItem now i = some m) :
    i.state = PState.canSleepUntil ∧ m = i.sleepUntil - (now : Int) ∧ 2000 ≤ m := by
  unfold contribItem at h
  cases hst : i.state with
  | active => rw [hst] at h; cases h
  | canSleep => rw [hst] at h; cases h
  | canSleepUntil =>
    rw [hst] at h
    by_cases hms : i.sleepUntil - (now : Int) < 2000
    · rw [if_pos hms] at h; cases h
    · rw [if_neg hms] at h
      injection h with h2
      exact ⟨rfl, h2.symm, by omega⟩

/-- C3 amended: when some `CanSleepUntil` owner has at least 2000 ms
remaining, every `CanSleepUntil` owner has at least 2000 ms remaining,
no `Active` owner has an unexpired deadline and no higher-priority mode is
due, the pass authorizes sleep, its chosen `canSleepForMs` is the minimum
contribution over the `CanSleepUntil` owners, and the persisted wake
timestamp of the current mode is exactly `now + canSleepForMs`. -/
theorem claim_C3_min_duration (N now : Nat) (s : PdState)
    (hex : ∃ i ∈ s.items, i.state = PState.canSleepUntil ∧ 2000 ≤ i.sleepUntil - (now : Int))
    (hact : ∀ i ∈ s.items, i.state = PState.active → i.sleepUntil - (now : Int) ≤ 0)
    (hcsu : ∀ i ∈ s.items, i.state = PState.canSleepUntil → 2000 ≤ i.sleepUntil - (now : Int))
    (hdue : ∀ j, s.powerMode < j → s.wake j ≠ 0 → now ≤ s.wake j)
    (hbound : ∀ i ∈ s.items, i.sleepUntil < u64Mod) :
    (checkCanSleep N now s).authorized = true ∧
    (∃ i ∈ s.items, contribItem now i = some ((scanItems now s.items (-1) false).2.1)) ∧
    (∀ i ∈ s.items, ∀ m, contribItem now i = some m →
      (scanItems now s.items (-1) false).2.1 ≤ m) ∧
    (((checkCanSleep N now s).state.wake s.powerMode : Int) =
      (now : Int) + (scanItems now s.items (-1) false).2.1) := by
  have hb : s.items.any (blocksItem now) = false := by
    rw [List.any_eq_false]
    intro i hi
    cases hst : i.state with
    | active =>
      have := hact i hi hst
      simp [blocksItem, hst]
      omega
    | canSleepUntil =>
      have := hcsu i hi hst
      simp [blocksItem, hst]
      omega
    | canSleep => simp [blocksItem, hst]
  have hd : dueList N now s = [] := by
    rw [dueList, List.filter_eq_nil_iff]
    intro j hj
    simp only [decide_eq_true_eq, not_and]
    intro h1 h2
    have := hdue j h1 h2
    omega
  have hCmem : (scanItems now s.items (-1) false).2.1
        ∈ s.items.filterMap (contribItem now) ∧
      ∀ m ∈ s.items.filterMap (contribItem now),
        (scanItems now s.items (-1) false).2.1 ≤ m := by
    rw [scanItems_min]
    apply foldl_minSent_neg_one
    · obtain ⟨i, hi, hst, hge⟩ := hex
      have hc : contribItem now i = some (i.sleepUntil - (now : Int)) := by
        unfold contribItem
        rw [hst, if_neg (by omega)]
      intro hnil
      have : (i.sleepUntil - (now : Int)) ∈ s.items.filterMap (contribItem now) :=
        List.mem_filterMap.mpr ⟨i, hi, hc⟩
      rw [hnil] at this
      cases this
    · intro m hm
      obtain ⟨i, _, hc⟩ := List.mem_filterMap.mp hm
      obtain ⟨_, _, hge⟩ := contribItem_some now i m hc
      omega
  obtain ⟨i0, hi0, hc0⟩ := List.mem_filterMap.mp hCmem.1
  obtain ⟨hst0, heq0, hge0⟩ := contribItem_some now i0 _ hc0
  have hauth := checkCanSleep_auth_eq N now s hb hd
  refine ⟨?_, ⟨i0, hi0, hc0⟩, ?_, ?_⟩
  · rw [hauth]
  · intro i hi m hc
    exact hCmem.2 m (List.mem_filterMap.mpr ⟨i, hi, hc⟩)
  · have hwake : (checkCanSleep N now s).state.wake s.powerMode =
        u64add now ((scanItems now s.items (-1) false).2.1) := by
      rw [hauth]
      simp
    rw [hwake]
    unfold u64add
    have hsum : (now : Int) + (scanItems now s.items (-1) false).2.1 = i0.sleepUntil := by
      omega
    rw [hsum, Int.emod_eq_of_lt (by omega) (hbound i0 hi0)]
    have : (0 : Int) ≤ i0.sleepUntil := by omega
    omega

/-- C3 counterexample: owner 1 is `CanSleepUntil` with 3000 ms remaining
(at least 2000), no owner is `Active` and no higher-priority mode is due,
yet owner 2's 1000 ms window blocks the pass: nothing is persisted for the
current mode, so the wake timestamp is not `now + 3000 = 13000`. -/
theorem claim_C3_counterexample :
    (∃ i ∈ exS3.items, i.state = PState.canSleepUntil ∧
      2000 ≤ i.sleepUntil - ((10000 : Nat) : Int)) ∧
    (∀ i ∈ exS3.items, i.state = PState.active → i.sleepUntil - ((10000 : Nat) : Int) ≤ 0) ∧
    (∀ j, exS3.powerMode < j → exS3.wake j ≠ 0 → (10000 : Nat) ≤ exS3.wake j) ∧
    (checkCanSleep 1 10000 exS3).authorized = false ∧
    (checkCanSleep 1 10000 exS3).state.wake 0 = 0 ∧
    (checkCanSleep 1 10000 exS3).state.wake 0 ≠ 13000 :=
  ⟨by decide, by decide, fun j _ h2 => absurd rfl h2, by decide, by decide, by decide⟩

theorem claim_C3_witness :
    ((∃ i ∈ exS3b.items, i.state = PState.canSleepUntil ∧
        2000 ≤ i.sleepUntil - ((10000 : Nat) : Int)) ∧
     (∀ i ∈ exS3b.items, i.state = PState.active →
        i.sleepUntil - ((10000 : Nat) : Int) ≤ 0) ∧
     (∀ i ∈ exS3b.items, i.state = PState.canSleepUntil →
        2000 ≤ i.sleepUntil - ((10000 : Nat) : Int)) ∧
     (∀ j, exS3b.powerMode < j → exS3b.wake j ≠ 0 → (10000 : Nat) ≤ exS3b.wake j) ∧
     (∀ i ∈ exS3b.items, i.sleepUntil < u64Mod)) ∧
    ((checkCanSleep 1 10000 exS3b).authorized = true ∧
     (∃ i ∈ exS3b.items, contribItem 10000 i =
        some ((scanItems 10000 exS3b.items (-1) false).2.1)) ∧
     (∀ i ∈ exS3b.items, ∀ m, contribItem 10000 i = some m →
        (scanItems 10000 exS3b.items (-1) false).2.1 ≤ m) ∧
     (((checkCanSleep 1 10000 exS3b).state.wake exS3b.powerMode : Int) =
        ((10000 : Nat) : Int) + (scanItems 10000 exS3b.items (-1) false).2.1)) :=
  ⟨⟨by decide, by decide, by decide, fun j _ h2 => absurd rfl h2, by decide⟩,
   claim_C3_min_duration 1 10000 exS3b (by decide) (by decide) (by decide)
     (fun j _ h2 => absurd rfl h2) (by decide)⟩

/-- C4: in this sleep-authorizing pass the persisted wake table ends up
`[0, 103000]`, so the globally minimum nonzero timestamp belongs to mode 1;
nevertheless the scan, initialized at index 0 without checking the zero
sentinel, selects mode 0 and dispatches `(0 - now, 0)` — the code slip the
claim's intended selection rule exposes. -/
theorem claim_C4_zero_slot_bug :
    (checkCanSleep 2 100000 exS4).authorized = true ∧
    (checkCanSleep 2 100000 exS4).state.wake 1 = 103000 ∧
    (checkCanSleep 2 100000 exS4).state.wake 0 = 0 ∧
    (checkCanSleep 2 100000 exS4).calls = [((-100000 : Int), 0)] := by decide

/-- C7 counterexample: on the baseline mode with one `CanSleep` owner and
an empty wake table, the pass authorizes sleep but the callback gets the
sentinel duration `-1`, not the 5000 ms periodic fallback interval. -/
theorem claim_C7_counterexample :
    (∀ i ∈ exS7.items, i.state = PState.canSleep) ∧
    exS7.powerMode = 0 ∧
    (∀ j, exS7.wake j = 0) ∧
    (checkCanSleep 1 100000 exS7).authorized = true ∧
    (checkCanSleep 1 100000 exS7).calls = [((-1 : Int), 0)] ∧
    ((-1 : Int) ≠ 5000) :=
  ⟨by decide, rfl, fun _ => rfl, by decide, by decide, by decide⟩

/-- C7 amended: in an unconstrained pass on the baseline mode (every
record `CanSleep` or an expired `Active`, empty wake table) the
sleep-authorizing branch runs with the `-1` sentinel: the callback is
invoked with duration `-1` targeting mode 0 and the persisted wake
timestamp becomes `now - 1`; the 5000 ms re-check cadence comes only from
the periodic timer rearm, not from the chosen duration. -/
theorem claim_C7_unconstrained (N now : Nat) (s : PdState)
    (hpm : s.powerMode = 0)
    (hitems : ∀ i ∈ s.items, i.state = PState.canSleep ∨
      (i.state = PState.active ∧ i.sleepUntil ≤ (now : Int)))
    (hwake : ∀ j, s.wake j = 0)
    (hlo : 1 ≤ now) (hhi : (now : Int) < u64Mod) :
    (checkCanSleep N now s).authorized = true ∧
    (checkCanSleep N now s).calls = [((-1 : Int), 0)] ∧
    (checkCanSleep N now s).state.wake 0 = now - 1 := by
  have hb : s.items.any (blocksItem now) = false := by
    rw [List.any_eq_false]
    intro i hi
    rcases hitems i hi with h | ⟨h1, h2⟩
    · simp [blocksItem, h]
    · simp [blocksItem, h1]
      omega
  have hd : dueList N now s = [] := by
    rw [dueList, List.filter_eq_nil_iff]
    intro j _
    simp only [decide_eq_true_eq, not_and]
    intro _ h2
    exact absurd (hwake j) h2
  have hcontrib : s.items.filterMap (contribItem now) = [] := by
    rw [List.filterMap_eq_nil_iff]
    intro i hi
    rcases hitems i hi with h | ⟨h1, _⟩
    · simp [contribItem, h]
    · simp [contribItem, h1]
  have hC : (scanItems now s.items (-1) false).2.1 = -1 := by
    rw [scanItems_min, hcontrib]
    rfl
  have hu : u64add now (-1) = now - 1 := by
    unfold u64add
    rw [Int.emod_eq_of_lt (by omega) (by omega)]
    omega
  have hauth := checkCanSleep_auth_eq N now s hb hd
  have hwake2 : (checkCanSleep N now s).state.wake = fun j =>
      if j = 0 then now - 1 else s.wake j := by
    rw [hauth]
    simp only [hC, hpm, hu]
  have hnm : nearestModeCalc N ((checkCanSleep N now s).state.wake) = 0 := by
    rw [hwake2]
    apply nearestModeCalc_zero
    intro i
    by_cases h : i = 0
    · subst h
      simp
    · simp [h, hwake i]
  refine ⟨?_, ?_, ?_⟩
  · rw [hauth]
  · rw [hauth] at hnm ⊢
    simp only [hC, hpm] at hnm ⊢
    rw [hnm]
    simp
  · rw [hwake2]
    simp

theorem claim_C7_witness :
    (exS7.powerMode = 0 ∧
     (∀ i ∈ exS7.items, i.state = PState.canSleep ∨
        (i.state = PState.active ∧ i.sleepUntil ≤ ((100000 : Nat) : Int))) ∧
     (∀ j, exS7.wake j = 0) ∧
     (1 : Nat) ≤ 100000 ∧ ((100000 : Nat) : Int) < u64Mod) ∧
    ((checkCanSleep 1 100000 exS7).authorized = true ∧
     (checkCanSleep 1 100000 exS7).calls = [((-1 : Int), 0)] ∧
     (checkCanSleep 1 100000 exS7).state.wake 0 = 100000 - 1) :=
  ⟨⟨rfl, by decide, fun _ => rfl, by decide, by decide⟩,
   claim_C7_unconstrained 1 100000 exS7 rfl (by decide) (fun _ => rfl) (by decide) (by decide)⟩

theorem hasRef_iff (l : List PowerItem) (x : Int) :
    hasRef l x = true ↔ ∃ j ∈ l, j.ref = x := by
  simp [hasRef, List.any_eq_true, beq_iff_eq]

theorem updateFirstRef_map_ref (r : Int) (f : PowerItem → PowerItem)
    (hf : ∀ p, (f p).ref = p.ref) :
    ∀ l : List PowerItem,
      (updateFirstRef r f l).map PowerItem.ref = l.map PowerItem.ref
  | [] => rfl
  | i :: rest => by
    by_cases h : i.ref = r
    · simp [updateFirstRef, h, hf]
    · simp [updateFirstRef, h, updateFirstRef_map_ref r f hf rest]

theorem findAndApply_map_ref (r : Int) (f : PowerItem → PowerItem)
    (hf : ∀ p, (f p).ref = p.ref) (l : List PowerItem) :
    (findAndApply r f l).map PowerItem.ref =
      if hasRef l r then l.map PowerItem.ref else r :: l.map PowerItem.ref := by
  unfold findAndApply
  by_cases h : hasRef l r
  · simp [h, updateFirstRef_map_ref r f hf l]
  · simp [h, hf, newItem]

theorem findAndApply_nodup (r : Int) (f : PowerItem → PowerItem)
    (hf : ∀ p, (f p).ref = p.ref) (l : List PowerItem)
    (hnd : (l.map PowerItem.ref).Nodup) :
    ((findAndApply r f l).map PowerItem.ref).Nodup := by
  rw [findAndApply_map_ref r f hf l]
  by_cases h : hasRef l r
  · simpa [h] using hnd
  · rw [if_neg h]
    refine List.nodup_cons.mpr ⟨?_, hnd⟩
    intro hmem
    obtain ⟨j, hj, hjr⟩ := List.mem_map.mp hmem
    exact h ((hasRef_iff l r).mpr ⟨j, hj, hjr⟩)

theorem mem_updateFirstRef (r : Int) (f : PowerItem → PowerItem) (j : PowerItem) :
    ∀ l : List PowerItem, j ∈ updateFirstRef r f l →
      j ∈ l ∨ ∃ p ∈ l, p.ref = r ∧ j = f p
  | [], h => by cases h
  | i :: rest, h => by
    by_cases hir : i.ref = r
    · rw [updateFirstRef, if_pos hir] at h
      rcases List.mem_cons.mp h with rfl | h2
      · exact Or.inr ⟨i, List.mem_cons_self i rest, hir, rfl⟩
      · exact Or.inl (List.mem_cons_of_mem i h2)
    · rw [updateFirstRef, if_neg hir] at h
      rcases List.mem_cons.mp h with rfl | h2
      · exact Or.inl (List.mem_cons_self j rest)
      · rcases mem_updateFirstRef r f j rest h2 with h3 | ⟨p, hp, hpr, hpe⟩
        · exact Or.inl (List.mem_cons_of_mem i h3)
        · exact Or.inr ⟨p, List.mem_cons_of_mem i hp, hpr, hpe⟩

theorem updateFirstRef_mem_of_ne (r : Int) (f : PowerItem → PowerItem) (j : PowerItem)
    (hj : j.ref ≠ r) :
    ∀ l : List PowerItem, j ∈ l → j ∈ updateFirstRef r f l
  | [], h => by cases h
  | i :: rest, h => by
    by_cases hir : i.ref = r
    · rw [updateFirstRef, if_pos hir]
      rcases List.mem_cons.mp h with rfl | h2
      · exact absurd hir hj
      · exact List.mem_cons_of_mem (f i) h2
    · rw [updateFirstRef, if_neg hir]
      rcases List.mem_cons.mp h with rfl | h2
      · exact List.mem_cons_self j _
      · exact List.mem_cons_of_mem i (updateFirstRef_mem_of_ne r f j hj rest h2)

theorem findAndApply_mem_of_ne (r : Int) (f : PowerItem → PowerItem)
    (hf : ∀ p, (f p).ref = p.ref) (j : PowerItem) (l : List PowerItem)
    (hj : j ∈ findAndApply r f l) (hne : j.ref ≠ r) : j ∈ l := by
  unfold findAndApply at hj
  by_cases h : hasRef l r
  · rw [if_pos h] at hj
    rcases mem_updateFirstRef r f j l hj with h2 | ⟨p, hp, hpr, rfl⟩
    · exact h2
    · rw [hf p, hpr] at hne
      exact absurd rfl hne
  · rw [if_neg h] at hj
    rcases List.mem_cons.mp hj with rfl | h2
    · rw [hf (newItem r)] at hne
      exact absurd rfl hne
    · exact h2

theorem findAndApply_mem_preserve (r : Int) (f : PowerItem → PowerItem)
    (j : PowerItem) (l : List PowerItem) (hj : j ∈ l) (hne : j.ref ≠ r) :
    j ∈ findAndApply r f l := by
  unfold findAndApply
  by_cases h : hasRef l r
  · rw [if_pos h]
    exact updateFirstRef_mem_of_ne r f j hne l hj
  · rw [if_neg h]
    exact List.mem_cons_of_mem _ hj

theorem findAndApply_first (r : Int) (f : PowerItem → PowerItem)
    (hf : ∀ p, (f p).ref = p.ref) (Q : PowerItem → Prop) (hQ : ∀ p, Q (f p)) :
    ∀ l : List PowerItem, ∃ j ∈ findAndApply r f l, j.ref = r ∧ Q j := by
  intro l
  unfold findAndApply
  by_cases h : hasRef l r
  · rw [if_pos h]
    obtain ⟨j0, hj0, hj0r⟩ := (hasRef_iff l r).mp h
    clear h
    induction l with
    | nil => cases hj0
    | cons i rest ih =>
      by_cases hir : i.ref = r
      · rw [updateFirstRef, if_pos hir]
        exact ⟨f i, List.mem_cons_self _ _, by rw [hf i, hir], hQ i⟩
      · rw [updateFirstRef, if_neg hir]
        rcases List.mem_cons.mp hj0 with rfl | h2
        · exact absurd hj0r hir
        · obtain ⟨j, hj, hjr, hjq⟩ := ih h2
          exact ⟨j, List.mem_cons_of_mem i hj, hjr, hjq⟩
  · rw [if_neg h]
    exact ⟨f (newItem r), List.mem_cons_self _ _, by rw [hf (newItem r)]; rfl, hQ (newItem r)⟩

theorem findAndApply_all_ref (r : Int) (f : PowerItem → PowerItem)
    (Q : PowerItem → Prop) (hQ : ∀ p, Q (f p)) :
    ∀ l : List PowerItem, (l.map PowerItem.ref).Nodup →
      ∀ j ∈ findAndApply r f l, j.ref = r → Q j := by
  intro l hnd
  unfold findAndApply
  by_cases h : hasRef l r
  · rw [if_pos h]
    induction l with
    | nil => intro j hj; cases hj
    | cons i rest ih =>
      intro j hj hjr
      by_cases hir : i.ref = r
      · rw [updateFirstRef, if_pos hir] at hj
        rcases List.mem_cons.mp hj with rfl | h2
        · exact hQ i
        · exfalso
          have : i.ref ∉ rest.map PowerItem.ref := (List.nodup_cons.mp (by simpa using hnd)).1
          exact this (by rw [hir, ← hjr]; exact List.mem_map_of_mem PowerItem.ref h2)
      · rw [updateFirstRef, if_neg hir] at hj
        rcases List.mem_cons.mp hj with rfl | h2
        · exact absurd hjr hir
        · have hnd2 : (rest.map PowerItem.ref).Nodup := (List.nodup_cons.mp (by simpa using hnd)).2
          have hhr : hasRef rest r = true := by
            obtain ⟨j0, hj0, hj0r⟩ := (hasRef_iff (i :: rest) r).mp h
            rcases List.mem_cons.mp hj0 with rfl | h3
            · exact absurd hj0r hir
            · exact (hasRef_iff rest r).mpr ⟨j0, h3, hj0r⟩
          exact ih hnd2 hhr j h2 hjr
  · rw [if_neg h]
    intro j hj hjr
    rcases List.mem_cons.mp hj with rfl | h2
    · exact hQ (newItem r)
    · exact absurd ((hasRef_iff l r).mpr ⟨j, h2, hjr⟩) (by simpa using h)

/-- C9: `hold(owner, duration)` sets exactly that owner record to `Active`
with deadline `now + duration` and nothing else: no arbitration pass, no
callback invocation, wake table and current mode untouched, every other
owner record untouched. -/
theorem claim_C9_hold_frame (now : Nat) (ref : Int) (d : Int) (s : PdState)
    (hnd : (s.items.map PowerItem.ref).Nodup) :
    (powerHold now ref d s).2 = [] ∧
    (powerHold now ref d s).1.wake = s.wake ∧
    (powerHold now ref d s).1.powerMode = s.powerMode ∧
    (∀ j ∈ (powerHold now ref d s).1.items, j.ref ≠ ref → j ∈ s.items) ∧
    (∀ j ∈ s.items, j.ref ≠ ref → j ∈ (powerHold now ref d s).1.items) ∧
    (∃ j ∈ (powerHold now ref d s).1.items,
       j.ref = ref ∧ j.state = PState.active ∧ j.sleepUntil = (now : Int) + d) ∧
    (∀ j ∈ (powerHold now ref d s).1.items, j.ref = ref →
       j.state = PState.active ∧ j.sleepUntil = (now : Int) + d) := by
  have hf : ∀ p : PowerItem, (holdUpdate now d p).ref = p.ref := fun p => rfl
  have hQ : ∀ p : PowerItem, (holdUpdate now d p).state = PState.active ∧
      (holdUpdate now d p).sleepUntil = (now : Int) + d := fun p => ⟨rfl, rfl⟩
  refine ⟨rfl, rfl, rfl, ?_, ?_, ?_, ?_⟩
  · intro j hj hne
    exact findAndApply_mem_of_ne ref (holdUpdate now d) hf j s.items hj hne
  · intro j hj hne
    exact findAndApply_mem_preserve ref (holdUpdate now d) j s.items hj hne
  · exact findAndApply_first ref (holdUpdate now d) hf
      (fun j => j.state = PState.active ∧ j.sleepUntil = (now : Int) + d) hQ s.items
  · intro j hj hjr
    exact findAndApply_all_ref ref (holdUpdate now d)
      (fun j => j.state = PState.active ∧ j.sleepUntil = (now : Int) + d) hQ
      s.items hnd j hj hjr

theorem claim_C9_witness :
    (exS9.items.map PowerItem.ref).Nodup ∧
    ((powerHold 1000 5 250 exS9).2 = [] ∧
     (powerHold 1000 5 250 exS9).1.wake = exS9.wake ∧
     (powerHold 1000 5 250 exS9).1.powerMode = exS9.powerMode ∧
     (∀ j ∈ (powerHold 1000 5 250 exS9).1.items, j.ref ≠ 5 → j ∈ exS9.items) ∧
     (∀ j ∈ exS9.items, j.ref ≠ 5 → j ∈ (powerHold 1000 5 250 exS9).1.items) ∧
     (∃ j ∈ (powerHold 1000 5 250 exS9).1.items,
        j.ref = 5 ∧ j.state = PState.active ∧ j.sleepUntil = ((1000 : Nat) : Int) + 250) ∧
     (∀ j ∈ (powerHold 1000 5 250 exS9).1.items, j.ref = 5 →
        j.state = PState.active ∧ j.sleepUntil = ((1000 : Nat) : Int) + 250)) :=
  ⟨by decide, claim_C9_hold_frame 1000 5 250 exS9 (by decide)⟩

/-- Both branches of the pass store the rewritten registry. -/
theorem checkCanSleep_items (N now : Nat) (s : PdState) :
    (checkCanSleep N now s).state.items = s.items.map (transformItem now) := by
  simp only [checkCanSleep]
  split
  · simp [scanItems_fst]
  · simp [scanItems_fst]

/-- C10: the hysteresis promotion keeps the original window-end deadline,
so the promoted record is `Active` with unchanged `sleepUntil`; any later
pass at or after that window end demotes it to `CanSleep`, and at such a
time the record no longer blocks sleep. -/
theorem claim_C10_promotion_expires (N now : Nat) (s : PdState) (i : PowerItem)
    (hi : i ∈ s.items) (hst : i.state = PState.canSleepUntil)
    (hms : i.sleepUntil - (now : Int) < 2000) :
    ({ i with state := PState.active } ∈ (checkCanSleep N now s).state.items) ∧
    ∀ (M now2 : Nat) (s2 : PdState),
      { i with state := PState.active } ∈ s2.items → i.sleepUntil ≤ (now2 : Int) →
      ({ i with state := PState.canSleep } ∈ (checkCanSleep M now2 s2).state.items ∧
       blocksItem now2 { i with state := PState.active } = false) := by
  constructor
  · rw [checkCanSleep_items]
    have ht : transformItem now i = { i with state := PState.active } := by
      simp [transformItem, hst, hms]
    exact ht ▸ List.mem_map_of_mem (transformItem now) hi
  · intro M now2 s2 hmem hle
    constructor
    · rw [checkCanSleep_items]
      have ht : transformItem now2 { i with state := PState.active } =
          { i with state := PState.canSleep } := by
        simp [transformItem]
        omega
      exact ht ▸ List.mem_map_of_mem (transformItem now2) hmem
    · simp [blocksItem]
      omega

theorem claim_C10_witness :
    ((⟨4, PState.canSleepUntil, 5000⟩ : PowerItem) ∈ exS10.items ∧
     (⟨4, PState.canSleepUntil, 5000⟩ : PowerItem).state = PState.canSleepUntil ∧
     (⟨4, PState.canSleepUntil, 5000⟩ : PowerItem).sleepUntil - ((4000 : Nat) : Int) < 2000) ∧
    (({ (⟨4, PState.canSleepUntil, 5000⟩ : PowerItem) with state := PState.active }
        ∈ (checkCanSleep 1 4000 exS10).state.items) ∧
     ∀ (M now2 : Nat) (s2 : PdState),
       { (⟨4, PState.canSleepUntil, 5000⟩ : PowerItem) with state := PState.active } ∈ s2.items →
       (⟨4, PState.canSleepUntil, 5000⟩ : PowerItem).sleepUntil ≤ (now2 : Int) →
       ({ (⟨4, PState.canSleepUntil, 5000⟩ : PowerItem) with state := PState.canSleep }
           ∈ (checkCanSleep M now2 s2).state.items ∧
        blocksItem now2
          { (⟨4, PState.canSleepUntil, 5000⟩ : PowerItem) with state := PState.active } = false)) :=
  ⟨⟨by decide, by decide, by decide⟩,
   claim_C10_promotion_expires 1 4000 exS10 _ (by decide) (by decide) (by decide)⟩

theorem transformItem_ref (now : Nat) (i : PowerItem) :
    (transformItem now i).ref = i.ref := by
  unfold transformItem
  split
  · split <;> rfl
  · split <;> rfl
  · rfl

theorem transformItem_canSleep (now : Nat) (i : PowerItem)
    (h : i.state = PState.canSleep) : transformItem now i = i := by
  unfold transformItem
  rw [h]

theorem map_ref_map_transform (now : Nat) (l : List PowerItem) :
    ((l.map (transformItem now)).map PowerItem.ref) = l.map PowerItem.ref := by
  rw [List.map_map]
  simp [Function.comp, transformItem_ref]

theorem pass_preserves_inv (ref : Int) (N now : Nat) (s : PdState)
    (h : RefCanSleepInv ref s.items) :
    RefCanSleepInv ref (checkCanSleep N now s).state.items := by
  obtain ⟨hnd, hhr, hall⟩ := h
  rw [checkCanSleep_items]
  refine ⟨?_, ?_, ?_⟩
  · rw [map_ref_map_transform]
    exact hnd
  · obtain ⟨j0, hj0, hj0r⟩ := (hasRef_iff s.items ref).mp hhr
    refine (hasRef_iff _ ref).mpr ⟨transformItem now j0, List.mem_map_of_mem _ hj0, ?_⟩
    rw [transformItem_ref]
    exact hj0r
  · intro j hj hjr
    obtain ⟨i, hi, rfl⟩ := List.mem_map.mp hj
    rw [transformItem_ref] at hjr
    have hcs := hall i hi hjr
    rw [transformItem_canSleep now i hcs]
    exact hcs

theorem findAndApply_inv_other (r ref : Int) (hne : r ≠ ref)
    (f : PowerItem → PowerItem) (hf : ∀ p, (f p).ref = p.ref)
    (l : List PowerItem) (h : RefCanSleepInv ref l) :
    RefCanSleepInv ref (findAndApply r f l) := by
  obtain ⟨hnd, hhr, hall⟩ := h
  refine ⟨findAndApply_nodup r f hf l hnd, ?_, ?_⟩
  · obtain ⟨j0, hj0, hj0r⟩ := (hasRef_iff l ref).mp hhr
    refine (hasRef_iff _ ref).mpr ⟨j0, ?_, hj0r⟩
    exact findAndApply_mem_preserve r f j0 l hj0 (by rw [hj0r]; exact fun hc => hne hc.symm)
  · intro j hj hjr
    have hjl : j ∈ l :=
      findAndApply_mem_of_ne r f hf j l hj (by rw [hjr]; exact fun hc => hne hc.symm)
    exact hall j hjl hjr

theorem canSleepOp_establishes_inv (N now : Nat) (ref : Int) (s : PdState)
    (hnd : (s.items.map PowerItem.ref).Nodup) :
    RefCanSleepInv ref (powerCanSleep N now ref s).1.items := by
  have hf : ∀ p : PowerItem, (canSleepUpdate p).ref = p.ref := fun p => rfl
  have hQ : ∀ p : PowerItem, (canSleepUpdate p).state = PState.canSleep := fun p => rfl
  have h2 : RefCanSleepInv ref (findAndApply ref canSleepUpdate s.items) := by
    refine ⟨findAndApply_nodup ref canSleepUpdate hf s.items hnd, ?_, ?_⟩
    · obtain ⟨j, hj, hjr, _⟩ := findAndApply_first ref canSleepUpdate hf
        (fun j => j.state = PState.canSleep) hQ s.items
      exact (hasRef_iff _ ref).mpr ⟨j, hj, hjr⟩
    · intro j hj hjr
      exact findAndApply_all_ref ref canSleepUpdate
        (fun j => j.state = PState.canSleep) hQ s.items hnd j hj hjr
  exact pass_preserves_inv ref N now
    { s with items := findAndApply ref canSleepUpdate s.items } h2

theorem stepEvent_preserves_inv (N : Nat) (ref : Int) (s : PdState) (e : Event)
    (he : eventByRef ref e = true → isCanSleepBy ref e = true)
    (h : RefCanSleepInv ref s.items) :
    RefCanSleepInv ref (stepEvent N s e).items := by
  cases e with
  | hold n r d =>
    by_cases hr : r = ref
    · exfalso
      have : isCanSleepBy ref (Event.hold n r d) = true := he (by simp [eventByRef, hr])
      simp [isCanSleepBy] at this
    · exact findAndApply_inv_other r ref hr (holdUpdate n d) (fun p => rfl) s.items h
  | canSleepFor n r d =>
    by_cases hr : r = ref
    · exfalso
      have : isCanSleepBy ref (Event.canSleepFor n r d) = true := he (by simp [eventByRef, hr])
      simp [isCanSleepBy] at this
    · have h2 := findAndApply_inv_other r ref hr (canSleepForUpdate n d) (fun p => rfl) s.items h
      exact pass_preserves_inv ref N n
        { s with items := findAndApply r (canSleepForUpdate n d) s.items } h2
  | canSleep n r =>
    by_cases hr : r = ref
    · subst hr
      exact canSleepOp_establishes_inv N n r s h.1
    · have h2 := findAndApply_inv_other r ref hr canSleepUpdate (fun p => rfl) s.items h
      exact pass_preserves_inv ref N n
        { s with items := findAndApply r canSleepUpdate s.items } h2
  | timer n => exact pass_preserves_inv ref N n s h

theorem runEvents_preserves_inv (N : Nat) (ref : Int) :
    ∀ (es : List Event), (∀ e ∈ es, eventByRef ref e = true → isCanSleepBy ref e = true) →
    ∀ s : PdState, RefCanSleepInv ref s.items →
    RefCanSleepInv ref (runEvents N s es).items
  | [], _, s, h => h
  | e :: rest, hes, s, h => by
    rw [runEvents]
    exact runEvents_preserves_inv N ref rest
      (fun x hx => hes x (List.mem_cons_of_mem e hx))
      (stepEvent N s e)
      (stepEvent_preserves_inv N ref s e (hes e (List.mem_cons_self e rest)) h)

/-- C8: after `permit_sleep(owner)` and any further events in which that
owner only ever calls `permit_sleep` again (other owners and the timer are
unrestricted), the owner is registered with state `CanSleep`; a `CanSleep`
record never blocks a pass and never contributes a sleep bound. -/
theorem claim_C8_permit_sleep_idempotent (N now : Nat) (ref : Int) (s : PdState)
    (es : List Event) (hnd : (s.items.map PowerItem.ref).Nodup)
    (hes : ∀ e ∈ es, eventByRef ref e = true → isCanSleepBy ref e = true) :
    hasRef (runEvents N (powerCanSleep N now ref s).1 es).items ref = true ∧
    (∀ i ∈ (runEvents N (powerCanSleep N now ref s).1 es).items,
       i.ref = ref → i.state = PState.canSleep) ∧
    (∀ (m : Nat) (i : PowerItem), i.state = PState.canSleep →
       blocksItem m i = false ∧ contribItem m i = none) := by
  have h1 := canSleepOp_establishes_inv N now ref s hnd
  have h2 := runEvents_preserves_inv N ref es hes (powerCanSleep N now ref s).1 h1
  refine ⟨h2.2.1, h2.2.2, ?_⟩
  intro m i hcs
  constructor
  · simp [blocksItem, hcs]
  · simp [contribItem, hcs]

theorem claim_C8_witness :
    ((exS8.items.map PowerItem.ref).Nodup ∧
     (∀ e ∈ exE8, eventByRef 7 e = true → isCanSleepBy 7 e = true)) ∧
    (hasRef (runEvents 1 (powerCanSleep 1 100 7 exS8).1 exE8).items 7 = true ∧
     (∀ i ∈ (runEvents 1 (powerCanSleep 1 100 7 exS8).1 exE8).items,
        i.ref = 7 → i.state = PState.canSleep) ∧
     (∀ (m : Nat) (i : PowerItem), i.state = PState.canSleep →
        blocksItem m i = false ∧ contribItem m i = none)) :=
  ⟨⟨by decide, by decide⟩,
   claim_C8_permit_sleep_idempotent 1 100 7 exS8 exE8 (by decide) (by decide)⟩

end Powerdown
